import Mathlib

/-!
Verification of the olyprep quiz application's grading and attempt engine
(`app/routers/tests_new.py`), shallowly embedded in Lean.

Python strings are Lean `String`s, Python `int` is `Int`, Python `float`
values arising from `float(...)` on decimal literals are idealized as the
exact decimal rationals they denote; `inf`/`nan` literals and underscore
digit separators of Python numeric parsing are outside the modelled
fragment.  Fallible code is
embedded with `Except PyExc`.  ORM rows are plain structures; the per-attempt
answer dictionary built by `_load_attempt_answers_map` is a list of rows with
(by dict construction) unique `question_id` keys, looked up with `find?`.
-/

namespace OlyPrep

/-- Python exceptions that the embedded code can raise. -/
inductive PyExc where
  | http (status : Int)
  | attributeError
  | typeError
deriving DecidableEq, Repr

/-! ## Models of Python primitives

Lean core's `String.trim`/`toLower`/`splitOn`/`replace` are opaque to kernel
reduction, so the string operations the source uses are modelled directly as
structural recursions over the character list of a `String`. -/

/-- `x or ""` applied to a nullable string column (`None` and `""` are falsy). -/
def pyOrStr (o : Option String) : String := o.getD ("")

/-- `s or d` for strings: the empty string is falsy. -/
def pyOrDefault (s d : String) : String := if s = "" then d else s

/-- The whitespace set stripped by Python `str.strip()` (the rare vertical
tab / form feed / unicode members are included via their code points). -/
def pySpaceChar (c : Char) : Bool :=
  c = ' ' || c = '\t' || c = '\n' || c = '\r' ||
  c = Char.ofNat 11 || c = Char.ofNat 12

/-- Drop leading whitespace. -/
def trimLeftChars : List Char → List Char
  | [] => []
  | c :: cs => if pySpaceChar c then trimLeftChars cs else c :: cs

/-- Drop leading and trailing whitespace. -/
def trimChars (l : List Char) : List Char :=
  trimLeftChars ((trimLeftChars l.reverse).reverse)

/-- `s.strip()`. -/
def pyStrip (s : String) : String := ⟨trimChars s.data⟩

/-- ASCII lower-casing of one character (the payloads this application
compares are ASCII; full unicode case folding is out of the modelled
fragment). -/
def lowerChar (c : Char) : Char :=
  if 65 ≤ c.toNat ∧ c.toNat ≤ 90 then Char.ofNat (c.toNat + 32) else c

/-- `s.lower()`. -/
def pyLower (s : String) : String := ⟨s.data.map lowerChar⟩

/-- `s.split(",")` on the character list: split at every comma. -/
def splitCommaChars : List Char → List (List Char)
  | [] => [[]]
  | c :: cs =>
    let rest := splitCommaChars cs
    if c = ',' then [] :: rest
    else
      match rest with
      | [] => [[c]]
      | h :: t => (c :: h) :: t

/-- `s.replace(",", ".")` (single-character pattern, hence a plain map). -/
def commaToDot (s : String) : String :=
  ⟨s.data.map (fun c => if c = ',' then '.' else c)⟩

/-- Value of a digit string. -/
def digitsVal (ds : List Char) : Nat :=
  ds.foldl (fun a c => a * 10 + (c.toNat - 48)) 0

/-- Strip one optional leading sign, returning the sign and the rest. -/
def parseSign : List Char → Int × List Char
  | '-' :: rest => (-1, rest)
  | '+' :: rest => (1, rest)
  | l => (1, l)

/-- Python `int(...)` on an already-trimmed character list. -/
def pyIntChars (l : List Char) : Option Int :=
  let (sg, ds) := parseSign l
  if ds.isEmpty || !(ds.all Char.isDigit) then none
  else some (sg * (digitsVal ds : Int))

/-- Python `int(s)` on a string: optional surrounding whitespace, optional
sign, then decimal digits.  (Underscore digit separators are not modelled.) -/
def pyInt (s : String) : Option Int := pyIntChars (trimChars s.data)

/-- A parsed float literal, kept as the exact decimal fraction
`num / 10 ^ exp10` (kernel-computable, unlike reduced rationals). -/
structure DecFloat where
  num : Int
  exp10 : Nat
deriving DecidableEq, Repr

/-- The rational value of a parsed float literal. -/
def decFloatVal (x : DecFloat) : ℚ := (x.num : ℚ) / (10 : ℚ) ^ x.exp10

/-- Exact numeric equality of two parsed float literals, by
cross-multiplication. -/
def decFloatEq (a b : DecFloat) : Bool :=
  a.num * ((10 ^ b.exp10 : Nat) : Int) == b.num * ((10 ^ a.exp10 : Nat) : Int)

/-- Mantissa of a float literal: `digits`, `digits.digits`, `digits.` or
`.digits`, with at least one digit; returns the scaled numerator and the
number of fraction digits. -/
def parseMantissa (l : List Char) : Option (Nat × Nat) :=
  let ip := l.takeWhile Char.isDigit
  let rest := l.dropWhile Char.isDigit
  match rest with
  | [] => if ip.isEmpty then none else some (digitsVal ip, 0)
  | '.' :: fp =>
      if (ip.isEmpty && fp.isEmpty) || !(fp.all Char.isDigit) then none
      else some (digitsVal ip * 10 ^ fp.length + digitsVal fp, fp.length)
  | _ => none

/-- Split a float literal at the exponent marker `e`/`E`. -/
def splitExp (l : List Char) : List Char × Option (List Char) :=
  let notE : Char → Bool := fun c => !(c = 'e' || c = 'E')
  let m := l.takeWhile notE
  match l.dropWhile notE with
  | [] => (m, none)
  | _ :: rest => (m, some rest)

/-- Python `float(...)` on an already-trimmed character list, idealized to an
exact decimal rational: optional sign, decimal mantissa, optional exponent.
`inf`/`nan` literals and IEEE-754 rounding are outside the modelled fragment
(both sides of every comparison in the source are parsed the same way, so
exact-rational equality matches exact float equality on the decimal literals
this application stores). -/
def pyFloatChars (l : List Char) : Option DecFloat :=
  let (mant0, eopt) := splitExp l
  let (sg, mant) := parseSign mant0
  match eopt with
  | none => (parseMantissa mant).map (fun mf => ⟨sg * (mf.1 : Int), mf.2⟩)
  | some ech =>
      let (esg, eds) := parseSign ech
      if eds.isEmpty || !(eds.all Char.isDigit) then none
      else (parseMantissa mant).map (fun mf =>
        if esg = 1 then ⟨sg * (mf.1 : Int) * ((10 ^ digitsVal eds : Nat) : Int), mf.2⟩
        else ⟨sg * (mf.1 : Int), mf.2 + digitsVal eds⟩)

/-- Python `float(s)` on a string (whitespace-tolerant). -/
def pyFloat (s : String) : Option DecFloat := pyFloatChars (trimChars s.data)

/-! ## Model of `json.loads` on the payloads this app stores

Match payloads are JSON arrays of integers and `null`s (written by
`run_test_post` as `json.dumps` of `Optional[int]` choices, and authored as
`json.dumps(list(range(n)))`).  Only this flat fragment is modelled; nested
arrays or string elements never occur in the stored payloads. -/

/-- Result of `json.loads` as used by the match branch. -/
inductive JsonLoads where
  | list (items : List (Option Int))
  | scalar
  | malformed
deriving DecidableEq, Repr

/-- A JSON integer literal: optional `-`, digits, no leading zeros. -/
def jsonNatChars (ds : List Char) : Option Nat :=
  if ds.isEmpty || !(ds.all Char.isDigit) then none
  else if ds.length > 1 && ds.headD ' ' = '0' then none
  else some (digitsVal ds)

/-- A JSON integer token. -/
def jsonIntChars : List Char → Option Int
  | '-' :: ds => (jsonNatChars ds).map (fun n => -(n : Int))
  | ds => (jsonNatChars ds).map (fun n => (n : Int))

/-- One array element: `null` or an integer. -/
def parseJsonItem (l : List Char) : Option (Option Int) :=
  let t := trimChars l
  if t = ("null").data then some none
  else (jsonIntChars t).map some

/-- Crude recognizer for non-array JSON scalars (only used to distinguish a
successful non-list parse from a raised `JSONDecodeError`). -/
def jsonScalar (t : List Char) : Bool :=
  t = ("true").data || t = ("false").data || t = ("null").data ||
  (jsonIntChars t).isSome || (pyFloatChars t).isSome ||
  (2 ≤ t.length && t.head? = some '\x22' && t.getLast? = some '\x22')

/-- `json.loads` restricted to the modelled fragment. -/
def pyJsonLoadsList (s : String) : JsonLoads :=
  match trimChars s.data with
  | [] => .malformed
  | c :: cs =>
    if c = '[' then
      match cs.reverse with
      | [] => .malformed
      | d :: revBody =>
        if d = ']' then
          let inner := trimChars revBody.reverse
          if inner = [] then .list []
          else
            match (splitCommaChars inner).mapM parseJsonItem with
            | some items => .list items
            | none => .malformed
        else .malformed
    else if jsonScalar (c :: cs) then .scalar
    else .malformed

/-! ## Data model (`app/models.py`) -/

/-- An `AnswerOption` row as read by the grader (`getattr(opt, "id", None)`,
`getattr(opt, "is_correct", False)`). -/
structure OptionItem where
  id : Option Int
  is_correct : Bool
deriving DecidableEq, Repr

/-- A `Question` row: the fields the grader reads. -/
structure Question where
  id : Int
  answer_type : String
  correct : Option String
  option_items : List OptionItem
deriving DecidableEq, Repr

/-- An `Answer` row (`student_answers`): raw payload plus the derived
`correct`/`points` fields the rescore writes back. -/
structure Answer where
  question_id : Int
  submission_id : Int
  selected_option_id : Option Int
  answer_text : Option String
  correct : Bool
  points : Int
deriving DecidableEq, Repr

/-- A `TestQuestion` link: the fields the rescore reads. -/
structure TestQuestion where
  question_id : Int
  points : Int
deriving DecidableEq, Repr

/-- A `Test` row: the fields `start_test` reads. -/
structure TestRec where
  id : Int
  max_attempts : Option Int
deriving DecidableEq, Repr

/-- A `TestAttempt` row; `finished` models `finished_at is not None`. -/
structure TestAttempt where
  id : Int
  test_id : Int
  user_id : Int
  finished : Bool
deriving DecidableEq, Repr

/-! ## Grading engine (`_recalculate_attempt_score`, per-question part)

The big `if answer_type ...` dispatch of `tests_new.py` lines 212-287.
The wrapped-entity unwrap at lines 202-205 never fires for a real `Question`
row (which always has an `options` attribute) and is omitted. -/

/-- Lines 217-230: the shared `text`/`number` branch.  `correct_str` arrives
already stripped; the user value is stripped here. -/
def gradeTextNumber (answer_type correct_str userRaw : String) : Bool :=
  let user_val := pyStrip userRaw
  if correct_str = "" || user_val = "" then false
  else if answer_type = "number" then
    match pyFloat (commaToDot correct_str), pyFloat (commaToDot user_val) with
    | some gt, some uv => decFloatEq gt uv
    | _, _ => false
  else decide (pyLower correct_str = pyLower user_val)

/-- One side of the match comparison: `json.loads(raw or "[]")` with the
exception caught and replaced by `[]`; a successful non-list parse fails the
later `isinstance(..., list)` check (`none` here). -/
def matchSide (raw : String) : Option (List (Option Int)) :=
  match pyJsonLoadsList (if raw = "" then ("[]") else raw) with
  | .list l => some l
  | .malformed => some []
  | .scalar => none

/-- The `all((user_list[i] is not None) and (int(user_list[i]) ==
int(correct_list[i])) ...)` loop; `int(None)` on the expected side raises an
uncaught `TypeError`.  Called with lists of equal length. -/
def matchAll : List (Option Int) → List (Option Int) → Except PyExc Bool
  | [], [] => .ok true
  | c :: cs, u :: us =>
    match u with
    | none => .ok false
    | some uv =>
      match c with
      | none => .error .typeError
      | some cv => if uv = cv then matchAll cs us else .ok false
  | _, _ => .ok false

/-- Length guard plus element-wise loop on the two decoded lists. -/
def gradeMatchLists (cl ul : List (Option Int)) : Except PyExc Bool :=
  if cl.length = ul.length then matchAll cl ul else .ok false

/-- Lines 231-249: the `match` branch on the raw stored strings. -/
def gradeMatch (correctRaw userRaw : String) : Except PyExc Bool :=
  match matchSide correctRaw, matchSide userRaw with
  | some cl, some ul => gradeMatchLists cl ul
  | _, _ => .ok false

/-- `{int(x) for x in s.split(",") if x.strip()}` with `ValueError` caught and
replaced by the empty set. -/
def parseIdxSet (s : String) : Finset Int :=
  let items := (splitCommaChars s.data).filter (fun x => !(trimChars x = []))
  match items.mapM (fun x => pyIntChars (trimChars x)) with
  | some l => l.toFinset
  | none => ∅

/-- Lines 250-265: the `multi`/`multiple` branch. -/
def gradeMulti (correct_str userRaw : String) : Bool :=
  let correct_idxs := parseIdxSet correct_str
  let user_text := pyStrip userRaw
  let user_idxs := if user_text = "" then (∅ : Finset Int) else parseIdxSet user_text
  decide (correct_idxs.Nonempty ∧ correct_idxs = user_idxs)

/-- Lines 266-287: the fallback branch (`single` and any other type):
integer-index comparison against `correct`, then the `option_items` scan. -/
def gradeSingle (q : Question) (selected : Option Int) (correct_str : String) : Bool :=
  match selected with
  | none => false
  | some sid =>
    let byIdx :=
      if correct_str = "" then false
      else match pyInt correct_str with
        | some ci => decide (ci = sid)
        | none => false
    if byIdx then true
    else q.option_items.any (fun opt => opt.id == some sid && opt.is_correct)

/-- The full per-answer dispatch of `_recalculate_attempt_score`
(lines 212-287): computes the `is_correct` flag for one stored answer. -/
def gradeIsCorrect (q : Question) (ans : Answer) : Except PyExc Bool :=
  let answer_type := pyOrDefault q.answer_type ("text")
  let correct_str := pyStrip (pyOrStr q.correct)
  if answer_type = "text" || answer_type = "number" then
    .ok (gradeTextNumber answer_type correct_str (pyOrStr ans.answer_text))
  else if answer_type = "match" then
    gradeMatch (pyOrStr q.correct) (pyOrStr ans.answer_text)
  else if answer_type = "multi" || answer_type = "multiple" then
    .ok (gradeMulti correct_str (pyOrStr ans.answer_text))
  else
    .ok (gradeSingle q ans.selected_option_id correct_str)

/-! ## Attempt aggregator (`_recalculate_attempt_score`, lines 183-297)

The answer store is the `{question_id: Answer}` dictionary built by
`_load_attempt_answers_map` (unique keys by dict construction), represented
as a list of rows looked up by `question_id`.  Mutating a row's derived
fields is a functional update of every row carrying that key. -/

/-- `db.get(Question, qid)` (equivalently the `link.question` relationship). -/
def findQuestion (db : List Question) (qid : Int) : Option Question :=
  db.find? (fun q => q.id == qid)

/-- Dictionary lookup `answers_map.get(qid)`. -/
def lookupAnswer (answers : List Answer) (qid : Int) : Option Answer :=
  answers.find? (fun a => a.question_id == qid)

/-- Overwrite the derived `correct`/`points` fields of a row (`none` leaves
the row untouched). -/
def applyWrite (r : Answer) : Option (Bool × Int) → Answer
  | none => r
  | some (c, p) => { r with correct := c, points := p }

/-- Apply a per-key write plan to the whole store. -/
def mapWrite (w : Int → Option (Bool × Int)) (answers : List Answer) : List Answer :=
  answers.map (fun a => applyWrite a (w a.question_id))

/-- `ans.correct = ...; ans.points = ...` for the row keyed `qid`. -/
def writeBack (answers : List Answer) (qid : Int) (c : Bool) (p : Int) : List Answer :=
  mapWrite (fun k => if k = qid then some (c, p) else none) answers

/-- The rescore loop over the ordered `TestQuestion` links, threading the
answer store and the `total_score`/`max_score` accumulators.  A link whose
`Question` row was deleted raises `AttributeError` at `answers_map.get(q.id)`
(`q` is `None`); `max_score` has already been incremented at that point, but
the exception aborts the whole recomputation. -/
def recalcLinks (qs : List Question) :
    List TestQuestion → List Answer → Int → Int →
    Except PyExc (List Answer × Int × Int)
  | [], answers, total, maxs => .ok (answers, total, maxs)
  | link :: rest, answers, total, maxs =>
    let maxs2 := maxs + link.points
    match findQuestion qs link.question_id with
    | none => .error .attributeError
    | some q =>
      match lookupAnswer answers q.id with
      | none => recalcLinks qs rest answers total maxs2
      | some ans =>
        match gradeIsCorrect q ans with
        | .error e => .error e
        | .ok c =>
          let pts := if c then link.points else 0
          recalcLinks qs rest (writeBack answers q.id c pts) (total + pts) maxs2

/-- Result of a full rescore: the rewritten answer store and the attempt's
new `score` and `max_score`. -/
structure RescoreOut where
  answers : List Answer
  score : Int
  max_score : Int
deriving DecidableEq, Repr

/-- `_recalculate_attempt_score(db, attempt, test, tqs)`: full recomputation
of `score`/`max_score` from the raw answer payloads. -/
def recalculate_attempt_score (qs : List Question) (tqs : List TestQuestion)
    (answers : List Answer) : Except PyExc RescoreOut :=
  match recalcLinks qs tqs answers 0 0 with
  | .error e => .error e
  | .ok (a, s, m) => .ok ⟨a, s, m⟩

/-- N-fold rescore: `rescoreTimes ... n` performs `n + 1` full rescores,
each starting from the answer store the previous one left behind. -/
def rescoreTimes (qs : List Question) (tqs : List TestQuestion)
    (answers : List Answer) : Nat → Except PyExc RescoreOut
  | 0 => recalculate_attempt_score qs tqs answers
  | n + 1 =>
    match rescoreTimes qs tqs answers n with
    | .error e => .error e
    | .ok out => recalculate_attempt_score qs tqs out.answers

/-! ## Derived descriptions of the rescore loop (used to state and prove its
properties; these are not part of the embedded source) -/

/-- Sequential composition of two optional writes: the later one wins. -/
def combineW (w1 w2 : Option (Bool × Int)) : Option (Bool × Int) :=
  match w2 with
  | some x => some x
  | none => w1

/-- Points the rescore loop adds to `total_score` on behalf of one link,
read off the initial answer store. -/
def awardForLink (qs : List Question) (answers : List Answer)
    (l : TestQuestion) : Int :=
  match findQuestion qs l.question_id with
  | none => 0
  | some q =>
    match lookupAnswer answers q.id with
    | none => 0
    | some r =>
      match gradeIsCorrect q r with
      | .ok true => l.points
      | _ => 0

/-- The write one link performs on the row keyed `qid` (threaded as a fold
accumulator; links for other keys, unanswered links and failed gradings fall
through). -/
def writeStep (qs : List Question) (answers : List Answer) (qid : Int)
    (acc : Option (Bool × Int)) (l : TestQuestion) : Option (Bool × Int) :=
  if l.question_id = qid then
    match findQuestion qs l.question_id with
    | none => acc
    | some q =>
      match lookupAnswer answers q.id with
      | none => acc
      | some r =>
        match gradeIsCorrect q r with
        | .ok c => some (c, if c then l.points else 0)
        | .error _ => acc
  else acc

/-- The final write the rescore loop leaves on the row keyed `qid`. -/
def writesFor (qs : List Question) (answers : List Answer)
    (links : List TestQuestion) (qid : Int) : Option (Bool × Int) :=
  links.foldl (writeStep qs answers qid) none

/-- Points stored on an optionally-present answer row. -/
def optPoints : Option Answer → Int
  | none => 0
  | some r => r.points

/-- The submitted index set of the `multi` branch: empty submission parses to
the empty set, otherwise comma-split integer parsing. -/
def multiUserIdxs (raw : String) : Finset Int :=
  if pyStrip raw = "" then (∅ : Finset Int) else parseIdxSet (pyStrip raw)

/-! ## Attempt state (`start_test`, `_get_or_create_attempt`, `run_test_get`) -/

/-- The active-attempt query of `_get_or_create_attempt`: unfinished attempts
of this user on this test, ordered by id descending, first row. -/
def latestActiveAttempt (attempts : List TestAttempt) (tid uid : Int) :
    Option TestAttempt :=
  (attempts.filter (fun a => a.test_id == tid && a.user_id == uid && !a.finished)).foldl
    (fun best a =>
      match best with
      | none => some a
      | some b => if b.id < a.id then some a else some b) none

/-- `_get_or_create_attempt`: reuse the latest unfinished attempt or insert a
fresh row (`newId` models the id the database assigns on flush). -/
def get_or_create_attempt (attempts : List TestAttempt) (tid uid newId : Int) :
    TestAttempt × List TestAttempt :=
  match latestActiveAttempt attempts tid uid with
  | some a => (a, attempts)
  | none =>
    let a : TestAttempt := ⟨newId, tid, uid, false⟩
    (a, attempts ++ [a])

/-- The attempt-count query of `start_test` (lines 320-324): all attempts of
this user on this test, finished or not. -/
def attemptsCountFor (attempts : List TestAttempt) (tid uid : Int) : Int :=
  ((attempts.filter (fun a => a.test_id == tid && a.user_id == uid)).length : Int)

/-- `GET /ui/tests/run/{test_id}` (lines 303-337): the no-questions check,
the attempt-limit gate (`if getattr(test, "max_attempts", None)` is falsy for
both `None` and `0`), then get-or-create and redirect to position 1. -/
def start_test (test : TestRec) (tqs : List TestQuestion)
    (attempts : List TestAttempt) (uid newId : Int) :
    Except PyExc (List TestAttempt × Int) :=
  if tqs.length = 0 then .error (.http 400)
  else
    let proceed : Except PyExc (List TestAttempt × Int) :=
      .ok ((get_or_create_attempt attempts test.id uid newId).2, 1)
    match test.max_attempts with
    | none => proceed
    | some m =>
      if m = 0 then proceed
      else if m ≤ attemptsCountFor attempts test.id uid then .error (.http 400)
      else proceed

/-- `GET /ui/tests/run/{test_id}/{position}` (lines 340-449), restricted to
its state-relevant behavior: bound checks (400 when the test has no
questions, 404 when `position` is outside `[1, total]`), get-or-create of the
attempt, resolution of the link's `Question` (`AttributeError` at
`answers_map.get(question.id)` when it was deleted), and the lookup of the
previously stored answer of this attempt.  Template rendering, option
decoding and the display-only shuffle are pure output formatting and carry no
state. -/
def run_test_get (qs : List Question) (tqs : List TestQuestion)
    (allAnswers : List Answer) (attempts : List TestAttempt)
    (tid uid newId position : Int) :
    Except PyExc ((TestQuestion × Question × Option Answer) × List TestAttempt) :=
  if tqs.length = 0 then .error (.http 400)
  else if position < 1 || (tqs.length : Int) < position then .error (.http 404)
  else
    let (attempt, attempts2) := get_or_create_attempt attempts tid uid newId
    let answers_map := allAnswers.filter (fun a => a.submission_id == attempt.id)
    match tqs.get? (position - 1).toNat with
    | none => .error (.http 404)
    | some link =>
      match findQuestion qs link.question_id with
      | none => .error .attributeError
      | some question =>
        .ok ((link, question, lookupAnswer answers_map question.id), attempts2)

/-! ## Write-plan lemmas -/

theorem applyWrite_question_id (r : Answer) (w : Option (Bool × Int)) :
    (applyWrite r w).question_id = r.question_id := by
  cases w with
  | none => rfl
  | some cp => cases cp; rfl

theorem gradeIsCorrect_applyWrite (q : Question) (r : Answer)
    (w : Option (Bool × Int)) :
    gradeIsCorrect q (applyWrite r w) = gradeIsCorrect q r := by
  cases w with
  | none => rfl
  | some cp => cases cp; cases r; rfl

theorem applyWrite_none (r : Answer) : applyWrite r none = r := rfl

theorem applyWrite_applyWrite (r : Answer) (w1 w2 : Option (Bool × Int)) :
    applyWrite (applyWrite r w1) w2 = applyWrite r (combineW w1 w2) := by
  cases w2 with
  | none => rfl
  | some cp =>
    cases cp
    cases w1 with
    | none => rfl
    | some cp1 => cases cp1; cases r; rfl

theorem combineW_none_right (w : Option (Bool × Int)) : combineW w none = w := rfl

theorem combineW_some_right (w : Option (Bool × Int)) (x : Bool × Int) :
    combineW w (some x) = some x := rfl

theorem mapWrite_congr (w1 w2 : Int → Option (Bool × Int)) (a : List Answer)
    (h : ∀ k, w1 k = w2 k) : mapWrite w1 a = mapWrite w2 a := by
  unfold mapWrite
  exact List.map_congr_left (fun r _ => by rw [h])

theorem mapWrite_none (a : List Answer) : mapWrite (fun _ => none) a = a := by
  unfold mapWrite
  simp [applyWrite_none]

theorem mapWrite_mapWrite (w1 w2 : Int → Option (Bool × Int)) (a : List Answer) :
    mapWrite w2 (mapWrite w1 a) =
      mapWrite (fun k => combineW (w1 k) (w2 k)) a := by
  unfold mapWrite
  rw [List.map_map]
  refine List.map_congr_left (fun r _ => ?_)
  show applyWrite (applyWrite r (w1 r.question_id))
      (w2 (applyWrite r (w1 r.question_id)).question_id) = _
  rw [applyWrite_question_id, applyWrite_applyWrite]

theorem lookupAnswer_mapWrite (w : Int → Option (Bool × Int)) (a : List Answer)
    (qid : Int) :
    lookupAnswer (mapWrite w a) qid =
      (lookupAnswer a qid).map (fun r => applyWrite r (w qid)) := by
  induction a with
  | nil => rfl
  | cons r rest ih =>
    unfold lookupAnswer mapWrite at *
    simp only [List.map_cons, List.find?_cons]
    rw [applyWrite_question_id]
    by_cases hr : r.question_id = qid
    · simp [hr]
    · have hb : (r.question_id == qid) = false := by
        simp [hr]
      simp only [hb]
      exact ih

theorem findQuestion_id (qs : List Question) (qid : Int) (q : Question)
    (h : findQuestion qs qid = some q) : q.id = qid := by
  have := List.find?_some h
  simpa using this

theorem awardForLink_mapWrite (qs : List Question) (w : Int → Option (Bool × Int))
    (a : List Answer) (l : TestQuestion) :
    awardForLink qs (mapWrite w a) l = awardForLink qs a l := by
  unfold awardForLink
  cases hq : findQuestion qs l.question_id with
  | none => rfl
  | some q =>
    simp only [lookupAnswer_mapWrite]
    cases hr : lookupAnswer a q.id with
    | none => rfl
    | some r =>
      simp only [Option.map_some', gradeIsCorrect_applyWrite]

theorem writeStep_mapWrite (qs : List Question) (w : Int → Option (Bool × Int))
    (a : List Answer) (qid : Int) (acc : Option (Bool × Int)) (l : TestQuestion) :
    writeStep qs (mapWrite w a) qid acc l = writeStep qs a qid acc l := by
  unfold writeStep
  by_cases hl : l.question_id = qid
  · rw [if_pos hl, if_pos hl]
    cases hq : findQuestion qs l.question_id with
    | none => rfl
    | some q =>
      simp only [lookupAnswer_mapWrite]
      cases hr : lookupAnswer a q.id with
      | none => rfl
      | some r =>
        simp only [Option.map_some', gradeIsCorrect_applyWrite]
  · rw [if_neg hl, if_neg hl]

theorem writesFor_mapWrite (qs : List Question) (w : Int → Option (Bool × Int))
    (a : List Answer) (links : List TestQuestion) (qid : Int) :
    writesFor qs (mapWrite w a) links qid = writesFor qs a links qid := by
  unfold writesFor
  suffices h : ∀ acc, links.foldl (writeStep qs (mapWrite w a) qid) acc =
      links.foldl (writeStep qs a qid) acc by
    exact h none
  induction links with
  | nil => intro acc; rfl
  | cons l rest ih =>
    intro acc
    simp only [List.foldl_cons]
    rw [writeStep_mapWrite]
    exact ih _

theorem writeStep_acc (qs : List Question) (a : List Answer) (qid : Int)
    (acc : Option (Bool × Int)) (l : TestQuestion) :
    writeStep qs a qid acc l = combineW acc (writeStep qs a qid none l) := by
  unfold writeStep
  by_cases hl : l.question_id = qid
  · rw [if_pos hl, if_pos hl]
    cases findQuestion qs l.question_id with
    | none => rfl
    | some q =>
      simp only
      cases lookupAnswer a q.id with
      | none => rfl
      | some r =>
        simp only
        cases gradeIsCorrect q r with
        | error e => rfl
        | ok c => rfl
  · rw [if_neg hl, if_neg hl]
    rfl

theorem foldl_writeStep_acc (qs : List Question) (a : List Answer) (qid : Int)
    (links : List TestQuestion) (acc : Option (Bool × Int)) :
    links.foldl (writeStep qs a qid) acc =
      combineW acc (links.foldl (writeStep qs a qid) none) := by
  induction links generalizing acc with
  | nil => cases acc <;> rfl
  | cons l rest ih =>
    simp only [List.foldl_cons]
    rw [ih (writeStep qs a qid acc l), ih (writeStep qs a qid none l)]
    cases hW : rest.foldl (writeStep qs a qid) none with
    | some x => rfl
    | none =>
      simp only [combineW_none_right]
      exact writeStep_acc qs a qid acc l

theorem writesFor_cons (qs : List Question) (a : List Answer)
    (l : TestQuestion) (rest : List TestQuestion) (qid : Int) :
    writesFor qs a (l :: rest) qid =
      combineW (writeStep qs a qid none l) (writesFor qs a rest qid) := by
  unfold writesFor
  simp only [List.foldl_cons]
  exact foldl_writeStep_acc qs a qid rest (writeStep qs a qid none l)

theorem combineW_none_left (w : Option (Bool × Int)) : combineW none w = w := by
  cases w <;> rfl

theorem writeBack_mapWrite (w : Int → Option (Bool × Int)) (a : List Answer)
    (qid : Int) (c : Bool) (p : Int) :
    writeBack (mapWrite w a) qid c p =
      mapWrite (fun k => if k = qid then none else w k) (writeBack a qid c p) := by
  unfold writeBack
  rw [mapWrite_mapWrite, mapWrite_mapWrite]
  apply mapWrite_congr
  intro k
  by_cases hk : k = qid
  · simp [hk, combineW]
  · simp [hk, combineW_none_left, combineW_none_right]

/-! ## Behavior of the rescore loop, conditioned on success -/

theorem recalc_max (qs : List Question) (links : List TestQuestion) :
    ∀ a t m b t2 m2, recalcLinks qs links a t m = .ok (b, t2, m2) →
      m2 = m + (links.map (fun l => l.points)).sum := by
  induction links with
  | nil =>
    intro a t m b t2 m2 h
    simp only [recalcLinks] at h
    cases h
    simp
  | cons link rest ih =>
    intro a t m b t2 m2 h
    simp only [recalcLinks] at h
    split at h
    · exact absurd h (by simp)
    · split at h
      · have := ih _ _ _ _ _ _ h
        simp only [this, List.map_cons, List.sum_cons]
        ring
      · split at h
        · exact absurd h (by simp)
        · have := ih _ _ _ _ _ _ h
          simp only [this, List.map_cons, List.sum_cons]
          ring

theorem recalc_score (qs : List Question) (links : List TestQuestion) :
    ∀ a t m b t2 m2, recalcLinks qs links a t m = .ok (b, t2, m2) →
      t2 = t + (links.map (awardForLink qs a)).sum := by
  induction links with
  | nil =>
    intro a t m b t2 m2 h
    simp only [recalcLinks] at h
    cases h
    simp
  | cons link rest ih =>
    intro a t m b t2 m2 h
    simp only [recalcLinks] at h
    split at h
    · exact absurd h (by simp)
    · rename_i q hq
      split at h
      · rename_i hr
        have ht := ih _ _ _ _ _ _ h
        have haw : awardForLink qs a link = 0 := by
          simp only [awardForLink, hq, hr]
        simp only [ht, haw, List.map_cons, List.sum_cons]
        ring
      · rename_i r hr
        split at h
        · exact absurd h (by simp)
        · rename_i c hg
          have ht := ih _ _ _ _ _ _ h
          have hmap : rest.map (awardForLink qs (writeBack a q.id c
                (if c then link.points else 0))) = rest.map (awardForLink qs a) := by
            refine List.map_congr_left (fun l2 _ => ?_)
            unfold writeBack
            exact awardForLink_mapWrite qs _ a l2
          rw [hmap] at ht
          have haw : awardForLink qs a link = (if c then link.points else 0) := by
            simp only [awardForLink, hq, hr, hg]
            cases c <;> simp
          simp only [ht, haw, List.map_cons, List.sum_cons]
          ring

theorem recalc_store (qs : List Question) (links : List TestQuestion) :
    ∀ a t m b t2 m2, recalcLinks qs links a t m = .ok (b, t2, m2) →
      b = mapWrite (writesFor qs a links) a := by
  induction links with
  | nil =>
    intro a t m b t2 m2 h
    simp only [recalcLinks] at h
    cases h
    exact ((mapWrite_congr _ _ a (fun k => rfl)).trans (mapWrite_none a)).symm
  | cons link rest ih =>
    intro a t m b t2 m2 h
    simp only [recalcLinks] at h
    split at h
    · exact absurd h (by simp)
    · rename_i q hq
      have hqid : q.id = link.question_id := findQuestion_id qs _ q hq
      split at h
      · rename_i hr
        have hb := ih _ _ _ _ _ _ h
        rw [hb]
        apply mapWrite_congr
        intro k
        rw [writesFor_cons]
        have hstep : writeStep qs a k none link = none := by
          unfold writeStep
          by_cases hl : link.question_id = k
          · rw [if_pos hl]
            simp only [hq, hr]
          · rw [if_neg hl]
        rw [hstep, combineW_none_left]
      · rename_i r hr
        split at h
        · exact absurd h (by simp)
        · rename_i c hg
          have hb := ih _ _ _ _ _ _ h
          rw [hb]
          have hwf : ∀ k, writesFor qs (writeBack a q.id c
              (if c then link.points else 0)) rest k = writesFor qs a rest k := by
            intro k
            unfold writeBack
            exact writesFor_mapWrite qs _ a rest k
          rw [mapWrite_congr _ _ _ hwf]
          show mapWrite (writesFor qs a rest) (mapWrite _ a) = _
          rw [mapWrite_mapWrite]
          apply mapWrite_congr
          intro k
          rw [writesFor_cons]
          have hstep : writeStep qs a k none link =
              (if k = q.id then some (c, if c then link.points else 0) else none) := by
            unfold writeStep
            by_cases hl : link.question_id = k
            · rw [if_pos hl]
              simp only [hq, hr, hg]
              have hk : k = q.id := by rw [hqid]; exact hl.symm
              rw [if_pos hk]
            · rw [if_neg hl]
              have hk : ¬(k = q.id) := by
                intro hk
                rw [hqid] at hk
                exact hl hk.symm
              rw [if_neg hk]
          rw [hstep]

theorem recalc_found (qs : List Question) (links : List TestQuestion) :
    ∀ a t m b t2 m2, recalcLinks qs links a t m = .ok (b, t2, m2) →
      ∀ l, l ∈ links → ∃ q, findQuestion qs l.question_id = some q := by
  induction links with
  | nil =>
    intro a t m b t2 m2 h l hl
    exact absurd hl (List.not_mem_nil l)
  | cons link rest ih =>
    intro a t m b t2 m2 h l hl
    simp only [recalcLinks] at h
    split at h
    · exact absurd h (by simp)
    · rename_i q hq
      rcases List.mem_cons.mp hl with hl | hl
      · exact ⟨q, by rw [hl]; exact hq⟩
      · split at h
        · exact ih _ _ _ _ _ _ h l hl
        · split at h
          · exact absurd h (by simp)
          · exact ih _ _ _ _ _ _ h l hl

theorem recalc_grade_ok (qs : List Question) (links : List TestQuestion) :
    ∀ a t m b t2 m2, recalcLinks qs links a t m = .ok (b, t2, m2) →
      ∀ l, l ∈ links → ∀ q, findQuestion qs l.question_id = some q →
      ∀ r, lookupAnswer a q.id = some r → ∃ c, gradeIsCorrect q r = .ok c := by
  induction links with
  | nil =>
    intro a t m b t2 m2 h l hl
    exact absurd hl (List.not_mem_nil l)
  | cons link rest ih =>
    intro a t m b t2 m2 h l hl q hfq r hlr
    simp only [recalcLinks] at h
    split at h
    · exact absurd h (by simp)
    · rename_i q0 hq0
      rcases List.mem_cons.mp hl with hl | hl
      · subst hl
        rw [hfq] at hq0
        cases hq0
        split at h
        · rename_i hr
          rw [hlr] at hr
          exact absurd hr (by simp)
        · rename_i r0 hr0
          rw [hlr] at hr0
          cases hr0
          split at h
          · exact absurd h (by simp)
          · rename_i c hg
            exact ⟨c, hg⟩
      · split at h
        · exact ih _ _ _ _ _ _ h l hl q hfq r hlr
        · rename_i r0 hr0
          split at h
          · exact absurd h (by simp)
          · rename_i c0 hg0
            have hlook : lookupAnswer (writeBack a q0.id c0
                (if c0 then link.points else 0)) q.id =
                some (applyWrite r (if q.id = q0.id then
                  some (c0, if c0 then link.points else 0) else none)) := by
              unfold writeBack
              rw [lookupAnswer_mapWrite, hlr]
              rfl
            obtain ⟨c, hc⟩ := ih _ _ _ _ _ _ h l hl q hfq _ hlook
            rw [gradeIsCorrect_applyWrite] at hc
            exact ⟨c, hc⟩

theorem recalc_mapWrite (qs : List Question) (links : List TestQuestion) :
    ∀ a t m b t2 m2 w, recalcLinks qs links a t m = .ok (b, t2, m2) →
      ∃ w2, recalcLinks qs links (mapWrite w a) t m = .ok (mapWrite w2 b, t2, m2) := by
  induction links with
  | nil =>
    intro a t m b t2 m2 w h
    simp only [recalcLinks] at h ⊢
    cases h
    exact ⟨w, rfl⟩
  | cons link rest ih =>
    intro a t m b t2 m2 w h
    simp only [recalcLinks] at h ⊢
    split at h
    · exact absurd h (by simp)
    · rename_i q hq
      simp only [hq, lookupAnswer_mapWrite]
      split at h
      · rename_i hr
        simp only [hr, Option.map_none']
        exact ih _ _ _ _ _ _ w h
      · rename_i r hr
        simp only [hr, Option.map_some', gradeIsCorrect_applyWrite]
        split at h
        · exact absurd h (by simp)
        · rename_i c hg
          obtain ⟨w2, hw2⟩ :=
            ih _ _ _ _ _ _ (fun k => if k = q.id then none else w k) h
          refine ⟨w2, ?_⟩
          rw [writeBack_mapWrite]
          exact hw2

theorem writesFor_nil (qs : List Question) (a : List Answer) (qid : Int) :
    writesFor qs a [] qid = none := rfl

theorem writesFor_some (qs : List Question) (a : List Answer)
    (links : List TestQuestion) (qid : Int) (c : Bool) (p : Int)
    (h : writesFor qs a links qid = some (c, p)) :
    ∃ l, l ∈ links ∧ l.question_id = qid ∧
      (∃ q, findQuestion qs qid = some q ∧
        ∃ r, lookupAnswer a qid = some r ∧ gradeIsCorrect q r = .ok c ∧
          p = (if c then l.points else 0)) := by
  induction links with
  | nil => exact absurd h (by simp [writesFor_nil])
  | cons link rest ih =>
    rw [writesFor_cons] at h
    cases hW : writesFor qs a rest qid with
    | some x =>
      rw [hW, combineW_some_right] at h
      cases h
      obtain ⟨l, hmem, hrest⟩ := ih hW
      exact ⟨l, List.mem_cons_of_mem _ hmem, hrest⟩
    | none =>
      rw [hW, combineW_none_right] at h
      unfold writeStep at h
      by_cases hl : link.question_id = qid
      · rw [if_pos hl] at h
        rw [hl] at h
        refine ⟨link, List.mem_cons_self _ _, hl, ?_⟩
        split at h
        · exact absurd h (by simp)
        · rename_i q hq
          have hqid : q.id = qid := findQuestion_id qs _ q hq
          rw [hqid] at h
          split at h
          · exact absurd h (by simp)
          · rename_i r hr
            split at h
            · rename_i c0 hg
              cases h
              exact ⟨q, hq, r, hr, hg, rfl⟩
            · exact absurd h (by simp)
      · rw [if_neg hl] at h
        exact absurd h (by simp)

theorem writesFor_not_mem (qs : List Question) (a : List Answer)
    (links : List TestQuestion) (qid : Int)
    (h : ∀ l, l ∈ links → l.question_id ≠ qid) :
    writesFor qs a links qid = none := by
  induction links with
  | nil => rfl
  | cons link rest ih =>
    rw [writesFor_cons]
    have hstep : writeStep qs a qid none link = none := by
      unfold writeStep
      rw [if_neg (h link (List.mem_cons_self _ _))]
    rw [hstep, combineW_none_left]
    exact ih (fun l hl => h l (List.mem_cons_of_mem _ hl))

theorem writesFor_single (qs : List Question) (a : List Answer)
    (links : List TestQuestion) (l : TestQuestion) (hmem : l ∈ links)
    (hnd : (links.map (fun x => x.question_id)).Nodup) :
    writesFor qs a links l.question_id = writeStep qs a l.question_id none l := by
  induction links with
  | nil => exact absurd hmem (List.not_mem_nil l)
  | cons x rest ih =>
    simp only [List.map_cons, List.nodup_cons] at hnd
    rw [writesFor_cons]
    rcases List.mem_cons.mp hmem with he | hmem2
    · subst he
      have hnone : writesFor qs a rest l.question_id = none := by
        refine writesFor_not_mem qs a rest _ (fun l2 hl2 hq => ?_)
        exact hnd.1 (hq ▸ List.mem_map.mpr ⟨l2, hl2, rfl⟩)
      rw [hnone, combineW_none_right]
    · have hxne : x.question_id ≠ l.question_id := by
        intro he2
        exact hnd.1 (he2 ▸ List.mem_map.mpr ⟨l, hmem2, rfl⟩)
      have hstep : writeStep qs a l.question_id none x = none := by
        unfold writeStep
        rw [if_neg hxne]
      rw [hstep, combineW_none_left]
      exact ih hmem2 hnd.2

theorem nodup_lookup_self (a : List Answer)
    (hnd : (a.map (fun r => r.question_id)).Nodup) :
    ∀ i (hi : i < a.length),
      lookupAnswer a ((a.get ⟨i, hi⟩).question_id) = some (a.get ⟨i, hi⟩) := by
  induction a with
  | nil => intro i hi; exact absurd hi (by simp)
  | cons r rest ih =>
    simp only [List.map_cons, List.nodup_cons] at hnd
    intro i hi
    cases i with
    | zero =>
      show lookupAnswer (r :: rest) r.question_id = some r
      unfold lookupAnswer
      simp [List.find?_cons]
    | succ j =>
      have hj : j < rest.length := by simpa using hi
      show lookupAnswer (r :: rest) ((rest.get ⟨j, hj⟩).question_id) =
        some (rest.get ⟨j, hj⟩)
      have hne : r.question_id ≠ (rest.get ⟨j, hj⟩).question_id := by
        intro he
        exact hnd.1 (he ▸ List.mem_map.mpr ⟨rest.get ⟨j, hj⟩, List.get_mem _ _ _, rfl⟩)
      unfold lookupAnswer
      rw [List.find?_cons_of_neg _ (by simpa using hne)]
      exact ih hnd.2 j hj

/-- The loop awards each link either nothing or exactly its points. -/
theorem awardForLink_mem (qs : List Question) (a : List Answer) (l : TestQuestion) :
    awardForLink qs a l = 0 ∨ awardForLink qs a l = l.points := by
  unfold awardForLink
  split
  · exact Or.inl rfl
  · split
    · exact Or.inl rfl
    · split
      · exact Or.inr rfl
      · exact Or.inl rfl

theorem sum_award_nonneg (qs : List Question) (a : List Answer)
    (links : List TestQuestion) (hpts : ∀ l, l ∈ links → 0 ≤ l.points) :
    0 ≤ (links.map (awardForLink qs a)).sum := by
  induction links with
  | nil => simp
  | cons l rest ih =>
    simp only [List.map_cons, List.sum_cons]
    have h1 : 0 ≤ awardForLink qs a l := by
      rcases awardForLink_mem qs a l with h | h
      · rw [h]
      · rw [h]; exact hpts l (List.mem_cons_self _ _)
    have h2 := ih (fun l2 hl2 => hpts l2 (List.mem_cons_of_mem _ hl2))
    linarith

theorem sum_award_le (qs : List Question) (a : List Answer)
    (links : List TestQuestion) (hpts : ∀ l, l ∈ links → 0 ≤ l.points) :
    (links.map (awardForLink qs a)).sum ≤ (links.map (fun l => l.points)).sum := by
  induction links with
  | nil => simp
  | cons l rest ih =>
    simp only [List.map_cons, List.sum_cons]
    have h1 : awardForLink qs a l ≤ l.points := by
      rcases awardForLink_mem qs a l with h | h
      · rw [h]; exact hpts l (List.mem_cons_self _ _)
      · rw [h]
    have h2 := ih (fun l2 hl2 => hpts l2 (List.mem_cons_of_mem _ hl2))
    linarith

theorem recalculate_ok (qs : List Question) (tqs : List TestQuestion)
    (answers : List Answer) (out : RescoreOut)
    (h : recalculate_attempt_score qs tqs answers = .ok out) :
    recalcLinks qs tqs answers 0 0 = .ok (out.answers, out.score, out.max_score) := by
  unfold recalculate_attempt_score at h
  split at h
  · exact absurd h (by simp)
  · rename_i b s m heq
    cases h
    exact heq

theorem recalculate_of_recalc (qs : List Question) (tqs : List TestQuestion)
    (answers b : List Answer) (t2 m2 : Int)
    (h : recalcLinks qs tqs answers 0 0 = .ok (b, t2, m2)) :
    recalculate_attempt_score qs tqs answers = .ok ⟨b, t2, m2⟩ := by
  unfold recalculate_attempt_score
  rw [h]

/-! ## The claims -/

/-- C6: the spec mandates that a `TestQuestion` link whose `Question` row was
deleted is skipped without raising and contributes nothing to `max_score`,
with the remaining questions still graded; the code instead evaluates
`answers_map.get(q.id)` with `q = None` and raises `AttributeError`, aborting
the whole rescore (after having already added the dangling link's points to
its `max_score` accumulator), so the remaining questions are not graded
either.  Failing input: a test whose first link points at the deleted
question id 42 and whose second link points at an existing, correctly
answered text question. -/
theorem c6_deleted_question_crashes :
    recalculate_attempt_score [⟨1, "text", some "a", []⟩] [⟨42, 1⟩, ⟨1, 2⟩]
      [⟨1, 1, none, some "a", false, 0⟩] = .error .attributeError := rfl

/-- C1: rescoring is idempotent.  If a full rescore of a fixed answer store
succeeds with some `(score, max_score)`, then running it `N ≥ 1` times
(`rescoreTimes ... n` performs `n + 1` rescores, each consuming the store the
previous one wrote) succeeds and yields the same `(score, max_score)`: every
pass recomputes both totals from zero out of the raw answer payloads, which
the write-back of the derived `correct`/`points` fields never touches. -/
theorem c1_rescore_idempotent (qs : List Question) (tqs : List TestQuestion)
    (answers : List Answer) (out : RescoreOut)
    (h : recalculate_attempt_score qs tqs answers = .ok out) :
    ∀ n, ∃ outn, rescoreTimes qs tqs answers n = .ok outn ∧
      outn.score = out.score ∧ outn.max_score = out.max_score := by
  have hL := recalculate_ok qs tqs answers out h
  have hstore : out.answers = mapWrite (writesFor qs answers tqs) answers :=
    recalc_store qs tqs _ _ _ _ _ _ hL
  have key : ∀ n, ∃ outn w, rescoreTimes qs tqs answers n = .ok outn ∧
      outn.score = out.score ∧ outn.max_score = out.max_score ∧
      outn.answers = mapWrite w answers := by
    intro n
    induction n with
    | zero =>
      exact ⟨out, writesFor qs answers tqs, h, rfl, rfl, hstore⟩
    | succ k ihk =>
      obtain ⟨outk, w, hk, hs, hm, hw⟩ := ihk
      obtain ⟨w2, hw2⟩ := recalc_mapWrite qs tqs _ _ _ _ _ _ w hL
      have hnext : rescoreTimes qs tqs answers (k + 1) =
          recalculate_attempt_score qs tqs outk.answers := by
        simp only [rescoreTimes, hk]
      rw [hw] at hnext
      have hok := recalculate_of_recalc qs tqs _ _ _ _ hw2
      refine ⟨⟨mapWrite w2 out.answers, out.score, out.max_score⟩,
        fun k2 => combineW (writesFor qs answers tqs k2) (w2 k2), ?_, rfl, rfl, ?_⟩
      · rw [hnext, hok]
      · show mapWrite w2 out.answers = _
        rw [hstore, mapWrite_mapWrite]
  intro n
  obtain ⟨outn, w, h1, h2, h3, _⟩ := key n
  exact ⟨outn, h1, h2, h3⟩

/-- Witness for C1 at a concrete attempt: one text question worth 2 points,
answered correctly; three further rescores reproduce `(2, 2)`. -/
theorem c1_rescore_idempotent_witness :
    recalculate_attempt_score [⟨1, "text", some "a", []⟩] [⟨1, 2⟩]
        [⟨1, 1, none, some "a", false, 0⟩] =
      .ok ⟨[⟨1, 1, none, some "a", true, 2⟩], 2, 2⟩ ∧
    ∃ outn, rescoreTimes [⟨1, "text", some "a", []⟩] [⟨1, 2⟩]
        [⟨1, 1, none, some "a", false, 0⟩] 2 = .ok outn ∧
      outn.score = 2 ∧ outn.max_score = 2 :=
  ⟨by rfl,
   c1_rescore_idempotent [⟨1, "text", some "a", []⟩] [⟨1, 2⟩]
     [⟨1, 1, none, some "a", false, 0⟩] ⟨[⟨1, 1, none, some "a", true, 2⟩], 2, 2⟩
     (by rfl) 2⟩

theorem matchAll_map_some (cl : List Int) :
    ∀ ul : List (Option Int), cl.length = ul.length →
      matchAll (cl.map some) ul = .ok (decide (ul = cl.map some)) := by
  induction cl with
  | nil =>
    intro ul h
    cases ul with
    | nil => simp [matchAll]
    | cons u us => exact absurd h (by simp)
  | cons c cs ih =>
    intro ul h
    cases ul with
    | nil => exact absurd h (by simp)
    | cons u us =>
      simp only [List.map_cons, matchAll]
      cases u with
      | none => simp
      | some uv =>
        show (if uv = c then matchAll (cs.map some) us else Except.ok false) = _
        by_cases huv : uv = c
        · subst huv
          rw [if_pos rfl, ih us (by simpa using h)]
          congr 1
          simp
        · rw [if_neg huv]
          have hne : (some uv :: us) ≠ (some c :: cs.map some) := by
            intro he
            rw [List.cons_eq_cons] at he
            exact huv (by injection he.1)
          simp [hne]

theorem gradeMatchLists_map_some (cl : List Int) (ul : List (Option Int)) :
    gradeMatchLists (cl.map some) ul = .ok (decide (ul = cl.map some)) := by
  unfold gradeMatchLists
  by_cases h : (cl.map some).length = ul.length
  · rw [if_pos h, matchAll_map_some cl ul (by simpa using h)]
  · rw [if_neg h]
    have hne : ul ≠ cl.map some := fun he => h (by rw [he])
    simp [hne]

/-- C7: match grading is all-or-nothing.  With the expected permutation
`cl` (a JSON array of integers) and a submitted list `ul` of chosen
right-indices, the element-wise comparison loop returns `ok true` exactly
when `ul` equals `cl` position by position (`ul = cl.map some` packs equal
lengths plus an answered, equal value at every index) and `ok false` on any
mismatch, never raising.  Concretely, against expected `[0,1,2]` the
submission `[0,1,2]` grades correct and `[0,2,1]` (two right, one wrong)
grades incorrect; rescoring a 5-point match question answered `[0,2,1]`
writes `correct := false` and `points := 0` — no partial credit. -/
theorem c7_match_all_or_nothing :
    (∀ (cl : List Int) (ul : List (Option Int)),
      gradeMatchLists (cl.map some) ul = .ok (decide (ul = cl.map some))) ∧
    gradeMatch ("[0,1,2]") ("[0,1,2]") = .ok true ∧
    gradeMatch ("[0,1,2]") ("[0,2,1]") = .ok false ∧
    recalculate_attempt_score [⟨1, "match", some "[0,1,2]", []⟩] [⟨1, 5⟩]
        [⟨1, 1, none, some "[0,2,1]", false, 3⟩] =
      .ok ⟨[⟨1, 1, none, some "[0,2,1]", false, 0⟩], 0, 5⟩ :=
  ⟨gradeMatchLists_map_some, rfl, rfl, rfl⟩

theorem pyFloat_comma_empty : pyFloat (commaToDot ("")) = none := rfl

theorem decFloatEq_iff (a b : DecFloat) :
    decFloatEq a b = true ↔ decFloatVal a = decFloatVal b := by
  unfold decFloatEq decFloatVal
  rw [div_eq_div_iff (by positivity) (by positivity), beq_iff_eq]
  constructor
  · intro h
    exact_mod_cast congrArg (fun z : Int => (z : ℚ)) h
  · intro h
    exact_mod_cast h

theorem gradeTextNumber_number (cs us : String) :
    gradeTextNumber ("number") cs us = true ↔
      ∃ x y, pyFloat (commaToDot cs) = some x ∧
        pyFloat (commaToDot (pyStrip us)) = some y ∧
        decFloatVal x = decFloatVal y := by
  unfold gradeTextNumber
  by_cases hc : cs = ""
  · subst hc
    simp [pyFloat_comma_empty]
  · by_cases hu : pyStrip us = ""
    · rw [hu]
      simp only [hc, or_true]
      rw [if_pos (by simp)]
      simp [pyFloat_comma_empty]
    · rw [if_neg (by simp [hc, hu]), if_pos rfl]
      cases hgt : pyFloat (commaToDot cs) with
      | none => simp [hgt]
      | some gt =>
        cases hut : pyFloat (commaToDot (pyStrip us)) with
        | none => simp [hgt, hut]
        | some ut =>
          simp only [hgt, hut, decFloatEq_iff, Option.some.injEq]
          constructor
          · intro he
            exact ⟨gt, ut, rfl, rfl, he⟩
          · rintro ⟨x, y, h1, h2, h3⟩
            rw [h1, h2] at *
            exact h3

/-- C8: numeric grading parses both sides after replacing commas with dots
and is correct exactly when both parses succeed and the parsed values are
equal — no tolerance; a parse failure on either side (including empty
strings, which the branch rejects before parsing and which do not parse
anyway) grades incorrect without raising.  Concretely, expected `"3,14"`
matches submitted `"3.14"`, and submitted `"abc"` grades incorrect. -/
theorem c8_number_grading :
    (∀ (copt utext : Option String) (qid aqid asub : Int)
       (opts : List OptionItem) (sel : Option Int) (c0 : Bool) (p0 : Int),
      gradeIsCorrect ⟨qid, "number", copt, opts⟩ ⟨aqid, asub, sel, utext, c0, p0⟩ =
          .ok true ↔
        ∃ x y, pyFloat (commaToDot (pyStrip (pyOrStr copt))) = some x ∧
          pyFloat (commaToDot (pyStrip (pyOrStr utext))) = some y ∧
          decFloatVal x = decFloatVal y) ∧
    gradeIsCorrect ⟨1, "number", some "3,14", []⟩
      ⟨1, 1, none, some "3.14", false, 0⟩ = .ok true ∧
    gradeIsCorrect ⟨1, "number", some "3,14", []⟩
      ⟨1, 1, none, some "abc", false, 0⟩ = .ok false := by
  refine ⟨?_, rfl, rfl⟩
  intro copt utext qid aqid asub opts sel c0 p0
  have hred : gradeIsCorrect ⟨qid, "number", copt, opts⟩
      ⟨aqid, asub, sel, utext, c0, p0⟩ =
      .ok (gradeTextNumber ("number") (pyStrip (pyOrStr copt)) (pyOrStr utext)) :=
    rfl
  rw [hred]
  constructor
  · intro h
    have hb : gradeTextNumber ("number") (pyStrip (pyOrStr copt))
        (pyOrStr utext) = true := by
      injection h
    exact (gradeTextNumber_number _ _).mp hb
  · intro h
    have hb := (gradeTextNumber_number _ _).mpr h
    rw [hb]

/-- C3 counterexample: the claim says the grader accepts a JSON array as a
submitted multi-choice format.  It does not: the submitted payload `"[0,2]"`
against the expected set `{0, 2}` (stored `"0,2"`) fails `int("[0")`, parses
to the empty set and grades incorrect, where the claim requires correct. -/
theorem c3_json_array_rejected :
    gradeIsCorrect ⟨1, "multi", some "0,2", []⟩
      ⟨1, 1, none, some "[0,2]", false, 0⟩ = .ok false := rfl

/-- C3 amended: multi-choice grading parses the submitted payload as a
comma-joined index string only (a JSON-array payload fails integer parsing
and collapses to the empty set); an answer is correct exactly when the
expected comma-parsed set is nonempty and equals the submitted set under
unordered set equality.  Concretely, expected `"0,2"`: submitted `"2,0"` is
correct (order-independent), `"0,2,1"`, the empty submission and the JSON
array `"[0,2]"` are incorrect. -/
theorem c3_multi_comma_joined_sets :
    (∀ (copt utext : Option String) (qid aqid asub : Int)
       (opts : List OptionItem) (sel : Option Int) (c0 : Bool) (p0 : Int),
      gradeIsCorrect ⟨qid, "multi", copt, opts⟩ ⟨aqid, asub, sel, utext, c0, p0⟩ =
          .ok true ↔
        ((parseIdxSet (pyStrip (pyOrStr copt))).Nonempty ∧
          parseIdxSet (pyStrip (pyOrStr copt)) = multiUserIdxs (pyOrStr utext))) ∧
    gradeMulti ("0,2") ("2,0") = true ∧
    gradeMulti ("0,2") ("0,2,1") = false ∧
    gradeMulti ("0,2") ("") = false ∧
    gradeMulti ("0,2") ("[0,2]") = false := by
  refine ⟨?_, by decide, by decide, by decide, by decide⟩
  intro copt utext qid aqid asub opts sel c0 p0
  have hred : gradeIsCorrect ⟨qid, "multi", copt, opts⟩
      ⟨aqid, asub, sel, utext, c0, p0⟩ =
      .ok (gradeMulti (pyStrip (pyOrStr copt)) (pyOrStr utext)) := rfl
  rw [hred]
  constructor
  · intro h
    have hb : gradeMulti (pyStrip (pyOrStr copt)) (pyOrStr utext) = true := by
      injection h
    exact of_decide_eq_true hb
  · intro h
    have hb : gradeMulti (pyStrip (pyOrStr copt)) (pyOrStr utext) = true :=
      decide_eq_true h
    rw [hb]

/-- C4 counterexample: the claim says every unrecognized `answer_type` grades
`(false, 0)`.  But the dispatch's `else` branch applies the single-choice
rule to any unrecognized type: a question with `answer_type = "bogus"`,
`correct = "1"` and a stored `selected_option_id = 1` is graded correct, and
a full rescore awards it the link's 5 points. -/
theorem c4_unknown_type_counterexample :
    gradeIsCorrect ⟨1, "bogus", some "1", []⟩ ⟨1, 1, some 1, none, false, 0⟩ =
      .ok true ∧
    recalculate_attempt_score [⟨1, "bogus", some "1", []⟩] [⟨1, 5⟩]
        [⟨1, 1, some 1, none, false, 0⟩] =
      .ok ⟨[⟨1, 1, some 1, none, true, 5⟩], 5, 5⟩ := ⟨rfl, rfl⟩

/-- C4 amended: a question whose `answer_type` (after the `or "text"`
default) is none of `text`, `number`, `match`, `multi`, `multiple` falls
through to the single-choice fallback rule — grading never throws, an answer
with no selected option gets `(false, 0)`, but a selected option matching
the integer in `correct` (or a correct-flagged option item) is graded
correct. -/
theorem c4_unknown_type_single_fallback (q : Question) (ans : Answer)
    (h : ¬(pyOrDefault q.answer_type ("text") ∈
      (["text", "number", "match", "multi", "multiple"] : List String))) :
    gradeIsCorrect q ans =
      .ok (gradeSingle q ans.selected_option_id (pyStrip (pyOrStr q.correct))) ∧
    (ans.selected_option_id = none → gradeIsCorrect q ans = .ok false) := by
  simp only [List.mem_cons, List.not_mem_nil, or_false, not_or] at h
  obtain ⟨h1, h2, h3, h4, h5⟩ := h
  have hred : gradeIsCorrect q ans =
      .ok (gradeSingle q ans.selected_option_id (pyStrip (pyOrStr q.correct))) := by
    unfold gradeIsCorrect
    rw [if_neg (by simp [h1, h2]), if_neg (by simp [h3]), if_neg (by simp [h4, h5])]
  refine ⟨hred, fun hnone => ?_⟩
  rw [hred, hnone]
  rfl

/-- Witness for C4's amended statement at `answer_type = "bogus"`. -/
theorem c4_unknown_type_single_fallback_witness :
    (¬(pyOrDefault ("bogus") ("text") ∈
      (["text", "number", "match", "multi", "multiple"] : List String))) ∧
    (gradeIsCorrect ⟨1, "bogus", some "1", []⟩ ⟨1, 1, some 1, none, false, 0⟩ =
      .ok (gradeSingle ⟨1, "bogus", some "1", []⟩ (some 1)
        (pyStrip (pyOrStr (some "1")))) ∧
    ((some 1 : Option Int) = none →
      gradeIsCorrect ⟨1, "bogus", some "1", []⟩ ⟨1, 1, some 1, none, false, 0⟩ =
        .ok false)) :=
  ⟨by decide,
   c4_unknown_type_single_fallback ⟨1, "bogus", some "1", []⟩
     ⟨1, 1, some 1, none, false, 0⟩ (by decide)⟩

/-- C5 counterexample: the claim says only Finished attempts count toward
`maxAttempts`, so an in-progress attempt must not block a (re)start.  The
code counts all attempts of the user on the test: with `max_attempts = 1`
and a single unfinished attempt, `start_test` rejects with the capacity
error where the claim requires it to proceed. -/
theorem c5_in_progress_attempt_counts :
    start_test ⟨1, some 1⟩ [⟨1, 1⟩] [⟨10, 1, 1, false⟩] 1 99 =
      .error (.http 400) := rfl

/-- C5 amended: when `max_attempts` is set to a nonzero value (Python's
truthiness check skips both `None` and `0`), starting a nonempty test is
rejected with the capacity error exactly when the count of all of the user's
attempts on this test — finished or not — has reached the limit; in
particular one finished attempt exhausts `max_attempts = 1`. -/
theorem c5_attempt_capacity_all_attempts :
    (∀ (test : TestRec) (tqs : List TestQuestion)
       (attempts : List TestAttempt) (uid newId m : Int),
      test.max_attempts = some m → ¬(m = 0) → ¬(tqs.length = 0) →
      (start_test test tqs attempts uid newId = .error (.http 400) ↔
        m ≤ attemptsCountFor attempts test.id uid)) ∧
    start_test ⟨1, some 1⟩ [⟨1, 1⟩] [⟨10, 1, 1, true⟩] 1 99 =
      .error (.http 400) := by
  refine ⟨?_, rfl⟩
  intro test tqs attempts uid newId m hm hm0 htqs
  simp only [start_test, hm, if_neg htqs, if_neg hm0]
  by_cases hcnt : m ≤ attemptsCountFor attempts test.id uid
  · rw [if_pos hcnt]
    simp [hcnt]
  · rw [if_neg hcnt]
    simp [hcnt]

/-- Witness for C5's amended statement: limit 2, one finished and one
in-progress attempt; the in-progress attempt is counted, so the start is
rejected. -/
theorem c5_attempt_capacity_all_attempts_witness :
    ((⟨1, some 2⟩ : TestRec).max_attempts = some 2) ∧ ¬((2 : Int) = 0) ∧
    ¬(([⟨1, 1⟩] : List TestQuestion).length = 0) ∧
    (start_test ⟨1, some 2⟩ [⟨1, 1⟩] [⟨10, 1, 1, true⟩, ⟨11, 1, 1, false⟩] 1 99 =
        .error (.http 400) ↔
      (2 : Int) ≤ attemptsCountFor [⟨10, 1, 1, true⟩, ⟨11, 1, 1, false⟩] 1 1) :=
  ⟨rfl, by decide, by decide,
   c5_attempt_capacity_all_attempts.1 ⟨1, some 2⟩ [⟨1, 1⟩]
     [⟨10, 1, 1, true⟩, ⟨11, 1, 1, false⟩] 1 99 2 rfl (by decide) (by decide)⟩

/-- C9 counterexample: the claim says navigation clamps the requested index
into range.  The route instead rejects an out-of-range position with a 404:
on a one-question test, requesting position 2 errors where the claim
requires the (clamped) question to be returned. -/
theorem c9_out_of_range_is_404 :
    run_test_get [⟨5, "text", some "a", []⟩] [⟨5, 1⟩] [] [⟨10, 1, 1, false⟩]
      1 1 99 2 = .error (.http 404) := rfl

/-- C9 amended: for a 1-based position inside `[1, total]`, when the user
already has an in-progress attempt and the link's question exists,
navigation is a pure read: it returns the link at `position - 1` together
with the previously stored answer of that attempt and leaves the attempt
store unchanged.  Out-of-range positions are rejected with a 404 rather than
clamped, and when no in-progress attempt exists the route creates one (a
mutation the claim rules out). -/
theorem c9_navigation_pure_read (qs : List Question) (tqs : List TestQuestion)
    (allAnswers : List Answer) (attempts : List TestAttempt)
    (tid uid newId position : Int) (a : TestAttempt) (link : TestQuestion)
    (q : Question)
    (ha : latestActiveAttempt attempts tid uid = some a)
    (h1 : 1 ≤ position) (h2 : position ≤ (tqs.length : Int))
    (hlink : tqs.get? (position - 1).toNat = some link)
    (hq : findQuestion qs link.question_id = some q) :
    run_test_get qs tqs allAnswers attempts tid uid newId position =
      .ok ((link, q, lookupAnswer (allAnswers.filter
        (fun r => r.submission_id == a.id)) q.id), attempts) := by
  have hlen : ¬(tqs.length = 0) := by
    intro h0
    rw [h0] at h2
    simp only [Nat.cast_zero] at h2
    omega
  have hgoc : get_or_create_attempt attempts tid uid newId = (a, attempts) := by
    unfold get_or_create_attempt
    rw [ha]
  have hcond : ¬((position < 1 || (tqs.length : Int) < position) = true) := by
    simp only [Bool.or_eq_true, decide_eq_true_eq, not_or, not_lt]
    omega
  unfold run_test_get
  rw [if_neg hlen, if_neg hcond]
  simp only [hgoc, hlink, hq]

/-- Witness for C9's amended statement on a one-question test with an
existing in-progress attempt and a stored answer. -/
theorem c9_navigation_pure_read_witness :
    (latestActiveAttempt [⟨10, 1, 1, false⟩] 1 1 = some ⟨10, 1, 1, false⟩) ∧
    ((1 : Int) ≤ 1) ∧
    ((1 : Int) ≤ (([⟨5, 1⟩] : List TestQuestion).length : Int)) ∧
    (([⟨5, 1⟩] : List TestQuestion).get? ((1 : Int) - 1).toNat = some ⟨5, 1⟩) ∧
    (findQuestion [⟨5, "text", some "a", []⟩] 5 = some ⟨5, "text", some "a", []⟩) ∧
    run_test_get [⟨5, "text", some "a", []⟩] [⟨5, 1⟩]
        [⟨5, 10, none, some "x", false, 0⟩] [⟨10, 1, 1, false⟩] 1 1 99 1 =
      .ok ((⟨5, 1⟩, ⟨5, "text", some "a", []⟩,
        lookupAnswer ([⟨5, 10, none, some "x", false, 0⟩].filter
          (fun r => r.submission_id == (10 : Int))) 5), [⟨10, 1, 1, false⟩]) :=
  ⟨rfl, by decide, by decide, rfl, rfl,
   c9_navigation_pure_read [⟨5, "text", some "a", []⟩] [⟨5, 1⟩]
     [⟨5, 10, none, some "x", false, 0⟩] [⟨10, 1, 1, false⟩] 1 1 99 1
     ⟨10, 1, 1, false⟩ ⟨5, 1⟩ ⟨5, "text", some "a", []⟩ rfl (by decide)
     (by decide) rfl rfl⟩

theorem mapWrite_length (w : Int → Option (Bool × Int)) (a : List Answer) :
    (mapWrite w a).length = a.length := by
  unfold mapWrite
  exact List.length_map a _

theorem mapWrite_get (w : Int → Option (Bool × Int)) (a : List Answer)
    (i : Nat) (hi : i < (mapWrite w a).length) (hj : i < a.length) :
    (mapWrite w a).get ⟨i, hi⟩ =
      applyWrite (a.get ⟨i, hj⟩) (w ((a.get ⟨i, hj⟩).question_id)) := by
  unfold mapWrite at *
  simp [List.get_map]

/-- C2: binary scoring.  After a successful rescore of a well-formed answer
map, every row either kept its previous derived fields (its question is not
linked into the test) or was written by some link of the test: its `correct`
flag is exactly what the grading dispatch computes for the row's raw payload,
and its awarded `points` are the link's points when correct and `0`
otherwise — always in `{0, pointsForQuestion}`, never fractional (points are
integers by type).  A link with `points = 0` is legal: the flag is still
recorded truthfully and the award is `if correct then 0 else 0 = 0`. -/
theorem c2_binary_scoring (qs : List Question) (tqs : List TestQuestion)
    (answers : List Answer) (out : RescoreOut)
    (h : recalculate_attempt_score qs tqs answers = .ok out)
    (hnd : (answers.map (fun r => r.question_id)).Nodup) :
    ∀ i (hi : i < out.answers.length) (hj : i < answers.length),
      ((out.answers.get ⟨i, hi⟩).correct = (answers.get ⟨i, hj⟩).correct ∧
        (out.answers.get ⟨i, hi⟩).points = (answers.get ⟨i, hj⟩).points) ∨
      (∃ link, link ∈ tqs ∧
        (out.answers.get ⟨i, hi⟩).question_id = link.question_id ∧
        (∃ q, findQuestion qs link.question_id = some q ∧
          gradeIsCorrect q (out.answers.get ⟨i, hi⟩) =
            .ok ((out.answers.get ⟨i, hi⟩).correct)) ∧
        (out.answers.get ⟨i, hi⟩).points =
          (if (out.answers.get ⟨i, hi⟩).correct then link.points else 0)) := by
  intro i hi hj
  have hL := recalculate_ok qs tqs answers out h
  have hstore := recalc_store qs tqs _ _ _ _ _ _ hL
  have hq1 : out.answers.get? i =
      some (applyWrite (answers.get ⟨i, hj⟩)
        (writesFor qs answers tqs ((answers.get ⟨i, hj⟩).question_id))) := by
    rw [hstore]
    show (answers.map (fun r =>
      applyWrite r (writesFor qs answers tqs r.question_id))).get? i = _
    rw [List.get?_map, List.get?_eq_get hj]
    rfl
  have hget : out.answers.get ⟨i, hi⟩ =
      applyWrite (answers.get ⟨i, hj⟩)
        (writesFor qs answers tqs ((answers.get ⟨i, hj⟩).question_id)) := by
    have h2 := List.get?_eq_get hi
    rw [hq1] at h2
    injection h2 with h3
    exact h3.symm
  cases hW : writesFor qs answers tqs ((answers.get ⟨i, hj⟩).question_id) with
  | none =>
    left
    rw [hget, hW, applyWrite_none]
    exact ⟨rfl, rfl⟩
  | some cp =>
    right
    obtain ⟨c, p⟩ := cp
    obtain ⟨l, hlmem, hlq, q, hfq, r, hlr, hg, hp⟩ :=
      writesFor_some qs answers tqs _ c p hW
    have hself := nodup_lookup_self answers hnd i hj
    rw [hself] at hlr
    cases hlr
    refine ⟨l, hlmem, ?_, ⟨q, ?_, ?_⟩, ?_⟩
    · rw [hget, applyWrite_question_id, ← hlq]
    · rw [← hlq] at hfq
      exact hfq
    · rw [hget, gradeIsCorrect_applyWrite, hW, hg]
      rfl
    · rw [hget, hW, hp]
      rfl

/-- Witness for C2: a 0-point text link; the rescore records the truthful
`correct := true` on the stale row and awards 0 points. -/
theorem c2_binary_scoring_witness :
    recalculate_attempt_score [⟨1, "text", some "a", []⟩] [⟨1, 0⟩]
        [⟨1, 1, none, some "a", false, 7⟩] =
      .ok ⟨[⟨1, 1, none, some "a", true, 0⟩], 0, 0⟩ ∧
    (([⟨1, 1, none, some "a", false, 7⟩] : List Answer).map
      (fun r => r.question_id)).Nodup ∧
    (((⟨1, 1, none, some "a", true, 0⟩ : Answer).correct =
        (⟨1, 1, none, some "a", false, 7⟩ : Answer).correct ∧
      (⟨1, 1, none, some "a", true, 0⟩ : Answer).points =
        (⟨1, 1, none, some "a", false, 7⟩ : Answer).points) ∨
     (∃ link, link ∈ ([⟨1, 0⟩] : List TestQuestion) ∧
       (⟨1, 1, none, some "a", true, 0⟩ : Answer).question_id =
         link.question_id ∧
       (∃ q, findQuestion [⟨1, "text", some "a", []⟩] link.question_id =
           some q ∧
         gradeIsCorrect q ⟨1, 1, none, some "a", true, 0⟩ =
           .ok ((⟨1, 1, none, some "a", true, 0⟩ : Answer).correct)) ∧
       (⟨1, 1, none, some "a", true, 0⟩ : Answer).points =
         (if (⟨1, 1, none, some "a", true, 0⟩ : Answer).correct
          then link.points else 0))) :=
  ⟨rfl, by decide,
   c2_binary_scoring [⟨1, "text", some "a", []⟩] [⟨1, 0⟩]
     [⟨1, 1, none, some "a", false, 7⟩] ⟨[⟨1, 1, none, some "a", true, 0⟩], 0, 0⟩
     (by rfl) (by decide) 0 (by decide) (by decide)⟩

/-- C10: the score-bounds invariant.  After a successful full rescore (which
presupposes every linked question exists), under the data-model invariants
that link points are non-negative and `(testId, questionId)` links are
unique, the attempt satisfies `0 ≤ score ≤ max_score`; `max_score` is the sum
of the points of all links, answered or not; and `score` is the sum over the
links of the `points` value the pass wrote onto the corresponding graded
`Answer` row (0 for unanswered links, which have no row). -/
theorem c10_score_bounds (qs : List Question) (tqs : List TestQuestion)
    (answers : List Answer) (out : RescoreOut)
    (h : recalculate_attempt_score qs tqs answers = .ok out)
    (hpts : ∀ l, l ∈ tqs → 0 ≤ l.points)
    (hnd : (tqs.map (fun l => l.question_id)).Nodup) :
    0 ≤ out.score ∧ out.score ≤ out.max_score ∧
    out.max_score = (tqs.map (fun l => l.points)).sum ∧
    out.score = (tqs.map (fun l =>
      optPoints (lookupAnswer out.answers l.question_id))).sum := by
  have hL := recalculate_ok qs tqs answers out h
  have hmax := recalc_max qs tqs _ _ _ _ _ _ hL
  have hscore := recalc_score qs tqs _ _ _ _ _ _ hL
  have hstore := recalc_store qs tqs _ _ _ _ _ _ hL
  rw [zero_add] at hmax hscore
  have hpoint : ∀ l ∈ tqs,
      optPoints (lookupAnswer out.answers l.question_id) =
        awardForLink qs answers l := by
    intro l hlmem
    obtain ⟨q, hfq⟩ := recalc_found qs tqs _ _ _ _ _ _ hL l hlmem
    have hqid := findQuestion_id qs _ q hfq
    rw [hstore, lookupAnswer_mapWrite]
    cases hlr : lookupAnswer answers l.question_id with
    | none =>
      simp only [awardForLink, hfq, hqid, hlr, Option.map_none']
      rfl
    | some r =>
      have hlr2 : lookupAnswer answers q.id = some r := by
        rw [hqid]
        exact hlr
      obtain ⟨c, hg⟩ := recalc_grade_ok qs tqs _ _ _ _ _ _ hL l hlmem q hfq r hlr2
      have hWf : writesFor qs answers tqs l.question_id =
          some (c, if c then l.points else 0) := by
        rw [writesFor_single qs answers tqs l hlmem hnd]
        unfold writeStep
        rw [if_pos rfl]
        simp only [hfq, hqid, hlr, hg]
      rw [hWf]
      simp only [Option.map_some', awardForLink, hfq, hlr2, hg, applyWrite]
      cases c
      · rfl
      · rfl
  refine ⟨?_, ?_, hmax, ?_⟩
  · rw [hscore]
    exact sum_award_nonneg qs answers tqs hpts
  · rw [hscore, hmax]
    exact sum_award_le qs answers tqs hpts
  · rw [hscore]
    exact (congrArg List.sum (List.map_congr_left hpoint)).symm

/-- Witness for C10 on a concrete attempt: one 2-point text question
answered correctly; the rescore yields `score = 2 = max_score`. -/
theorem c10_score_bounds_witness :
    recalculate_attempt_score [⟨1, "text", some "a", []⟩] [⟨1, 2⟩]
        [⟨1, 1, none, some "a", false, 0⟩] =
      .ok ⟨[⟨1, 1, none, some "a", true, 2⟩], 2, 2⟩ ∧
    (∀ l, l ∈ ([⟨1, 2⟩] : List TestQuestion) → 0 ≤ l.points) ∧
    (([⟨1, 2⟩] : List TestQuestion).map (fun l => l.question_id)).Nodup ∧
    (0 ≤ (⟨[⟨1, 1, none, some "a", true, 2⟩], 2, 2⟩ : RescoreOut).score ∧
     (⟨[⟨1, 1, none, some "a", true, 2⟩], 2, 2⟩ : RescoreOut).score ≤
       (⟨[⟨1, 1, none, some "a", true, 2⟩], 2, 2⟩ : RescoreOut).max_score ∧
     (⟨[⟨1, 1, none, some "a", true, 2⟩], 2, 2⟩ : RescoreOut).max_score =
       (([⟨1, 2⟩] : List TestQuestion).map (fun l => l.points)).sum ∧
     (⟨[⟨1, 1, none, some "a", true, 2⟩], 2, 2⟩ : RescoreOut).score =
       (([⟨1, 2⟩] : List TestQuestion).map (fun l =>
         optPoints (lookupAnswer
           (⟨[⟨1, 1, none, some "a", true, 2⟩], 2, 2⟩ : RescoreOut).answers
           l.question_id))).sum) :=
  ⟨rfl, by decide, by decide,
   c10_score_bounds [⟨1, "text", some "a", []⟩] [⟨1, 2⟩]
     [⟨1, 1, none, some "a", false, 0⟩] ⟨[⟨1, 1, none, some "a", true, 2⟩], 2, 2⟩
     (by rfl) (by decide) (by decide)⟩

end OlyPrep
